import Mathlib

/-
Verification development for the barrier-option pricing notebook
(BarriersTensorFlow): a shallow embedding over the reals of the
analytic down-and-out call pricer, the Monte Carlo down-and-out
pricer, and the sensitivity-target structure of the TensorFlow
pricers, together with theorems settling the specification claims.
-/

noncomputable section

/-- Standard normal cumulative distribution function (scipy.stats.norm.cdf /
tf.distributions.Normal(0,1).cdf in the source). -/
def Phi (x : ℝ) : ℝ :=
  ∫ t in Set.Iic x, Real.exp (-(t ^ 2) / 2) / Real.sqrt (2 * Real.pi)

/-- Embedding of `blackScholes_py`: the plain Black-Scholes call value. -/
def blackScholes_py (S K t σ r : ℝ) : ℝ :=
  let d1 := (Real.log (S / K) + (r + σ ^ 2 / 2) * t) / (σ * Real.sqrt t)
  let d2 := d1 - σ * Real.sqrt t
  S * Phi d1 - K * Real.exp (-(r * t)) * Phi d2

/-- Embedding of `analytical_downOut_py`: Black-Scholes value minus the
reflection term, with the power-law prefactor `(S/B) ** (1 - r/sigma**2)`
exactly as written in the source. -/
def analytical_downOut_py (S K t σ r B : ℝ) : ℝ :=
  let d1 := (Real.log (S / K) + (r + σ ^ 2 / 2) * t) / (σ * Real.sqrt t)
  let d2 := d1 - σ * Real.sqrt t
  let bs := S * Phi d1 - K * Real.exp (-(r * t)) * Phi d2
  let d1a := (Real.log (B ^ 2 / (S * K)) + (r + σ ^ 2 / 2) * t) / (σ * Real.sqrt t)
  let d2a := d1a - σ * Real.sqrt t
  let reflection :=
    (S / B) ^ ((1 : ℝ) - r / σ ^ 2) *
      ((B ^ 2 / S) * Phi d1a - K * Real.exp (-(r * t)) * Phi d2a)
  bs - reflection

/-- Modelled from the spec: the reflection-principle down-and-out call
formula whose power-law prefactor has exponent `1 - 2r/sigma^2`, i.e.
`bs(S,K,T,sigma,r) - (S/B)^(1 - 2r/sigma^2) * bs(B^2/S,K,T,sigma,r)`.
Used only to compare the source's formula against the spec's wording. -/
def analytical_downOut_spec (S K t σ r B : ℝ) : ℝ :=
  blackScholes_py S K t σ r -
    (S / B) ^ ((1 : ℝ) - 2 * r / σ ^ 2) * blackScholes_py (B ^ 2 / S) K t σ r

/-- Minimum over the first `n` entries of a row (`np.min(. , axis=1)` on a
row of length `n`; the `n = 0` base case is unreachable for a real numpy
matrix and is given an arbitrary value). -/
def rowMin (f : ℕ → ℝ) : ℕ → ℝ
  | 0 => f 0
  | n + 1 => min (rowMin f n) (f n)

/-- Embedding of the barrier continuity correction
`B_shift = B*np.exp(0.5826*sigma*np.sqrt(dt))`. -/
def barrierShift (B σ dt : ℝ) : ℝ := B * Real.exp (0.5826 * σ * Real.sqrt dt)

/-- Embedding of the path matrix line
`S_T = S * np.cumprod(np.exp((r-sigma**2/2)*dt+sigma*np.sqrt(dt)*Z), axis=1)`:
entry `j` of a row with variates `z` is `S` times the cumulative product of
the per-step exponential factors up to column `j`, with `dt = T/n`. -/
def pathEntry (S T σ r : ℝ) (n : ℕ) (z : ℕ → ℝ) (j : ℕ) : ℝ :=
  S * ∏ k in Finset.range (j + 1),
    Real.exp ((r - σ ^ 2 / 2) * (T / n) + σ * Real.sqrt (T / n) * z k)

/-- Embedding of `non_touch = (np.min(S_T, axis=1) > B_shift)*1` for one row. -/
def nonTouch (S T σ r B : ℝ) (n : ℕ) (z : ℕ → ℝ) : ℝ :=
  if barrierShift B σ (T / n) < rowMin (pathEntry S T σ r n z) n then 1 else 0

/-- Embedding of `non_touch = tf.cast(tf.reduce_all(S_T > B_shift, axis=1), tf.float32)`
for one row: 1 exactly when every grid-point price of the row is strictly
above the shifted barrier, else 0. -/
def nonTouchAll (S T σ r B : ℝ) (n : ℕ) (z : ℕ → ℝ) : ℝ :=
  if ∀ j < n, barrierShift B σ (T / n) < pathEntry S T σ r n z j then 1 else 0

/-- Embedding of `call_payout = np.maximum(S_T[:,-1] - K, 0)` for one row:
the raw last-column price (column `n-1`) against the unadjusted strike. -/
def callPayout (S T σ r K : ℝ) (n : ℕ) (z : ℕ → ℝ) : ℝ :=
  max (pathEntry S T σ r n z (n - 1) - K) 0

/-- Embedding of `monte_carlo_down_out_py`: the discounted mean over the `m`
rows of (knock-out indicator x terminal payoff), with `dt = T/n` derived
from the column count `n` of the variate matrix `Z`. -/
def monte_carlo_down_out_py (S K T σ r B : ℝ) (m n : ℕ) (Z : ℕ → ℕ → ℝ) : ℝ :=
  Real.exp (-(T * r)) *
    ((∑ i in Finset.range m,
        nonTouch S T σ r B n (Z i) * callPayout S T σ r K n (Z i)) / (m : ℝ))

end

/-- The market variables a TensorFlow pricer can differentiate against
(the placeholder tensors of the source). -/
inductive GreekVar
  | S
  | sigma
  | r
  | K
  | T
  | dt
  | B
deriving DecidableEq

/-- One entry of a TensorFlow pricer's `target_calc` list: the price itself,
a first-order gradient list `tf.gradients(npv, vars)`, or a second-order
Hessian row `tf.gradients(greeks[of], vars)`. -/
inductive PricerTarget
  | npv
  | gradients (vars : List GreekVar)
  | secondOrder (ofVar : GreekVar) (vars : List GreekVar)
deriving DecidableEq

/-- Whether a target is a second-order Hessian row. -/
def isSecondOrder : PricerTarget → Bool
  | PricerTarget.secondOrder _ _ => true
  | _ => false

/-- Embedding of the `target_calc` list built by `monte_carlo_down_out_tf`:
the npv, plus (when greeks are enabled) `tf.gradients(npv, [S, sigma, r, K, T])`. -/
def monte_carlo_down_out_tf_targets (enable_greeks : Bool) : List PricerTarget :=
  [PricerTarget.npv] ++
    if enable_greeks then
      [PricerTarget.gradients [GreekVar.S, GreekVar.sigma, GreekVar.r, GreekVar.K, GreekVar.T]]
    else []

/-- Embedding of the `target_calc` list built by `analytical_downOut_tf_pricer`:
the npv, plus (when greeks are enabled) the first-order gradients with
respect to `[S, sigma, r, K, dt, B]` and the second-order rows for `S` and
for `sigma` against the same variable list. -/
def analytical_downOut_tf_targets (enable_greeks : Bool) : List PricerTarget :=
  [PricerTarget.npv] ++
    if enable_greeks then
      [PricerTarget.gradients
          [GreekVar.S, GreekVar.sigma, GreekVar.r, GreekVar.K, GreekVar.dt, GreekVar.B],
        PricerTarget.secondOrder GreekVar.S
          [GreekVar.S, GreekVar.sigma, GreekVar.r, GreekVar.K, GreekVar.dt, GreekVar.B],
        PricerTarget.secondOrder GreekVar.sigma
          [GreekVar.S, GreekVar.sigma, GreekVar.r, GreekVar.K, GreekVar.dt, GreekVar.B]]
    else []

/-! ## Helper lemmas -/

/-- The knock-out comparison against the row minimum is equivalent to a
strict comparison against every entry of the row (for a nonempty row). -/
theorem lt_rowMin_iff : ∀ (n : ℕ), 0 < n → ∀ (f : ℕ → ℝ) (b : ℝ),
    (b < rowMin f n ↔ ∀ j < n, b < f j) := by
  intro n
  induction n with
  | zero => intro h; exact absurd h (lt_irrefl 0)
  | succ n ih =>
    intro _ f b
    rcases Nat.eq_zero_or_pos n with h0 | hn
    · subst h0
      simp [rowMin, Nat.lt_one_iff]
    · rw [show rowMin f (n + 1) = min (rowMin f n) (f n) from rfl, lt_min_iff, ih hn f b]
      constructor
      · rintro ⟨h1, h2⟩ j hj
        rcases Nat.lt_succ_iff_lt_or_eq.mp hj with hj2 | rfl
        · exact h1 j hj2
        · exact h2
      · intro hall
        exact ⟨fun j hj => hall j (Nat.lt_succ_of_lt hj), hall n (Nat.lt_succ_self n)⟩

/-- The row minimum of a one-column row is its only entry. -/
theorem rowMin_one (f : ℕ → ℝ) : rowMin f 1 = f 0 := by
  show min (rowMin f 0) (f 0) = f 0
  rw [show rowMin f 0 = f 0 from rfl, min_self]

/-- The terminal payoff is non-negative. -/
theorem callPayout_nonneg (S T σ r K : ℝ) (n : ℕ) (z : ℕ → ℝ) :
    0 ≤ callPayout S T σ r K n z := by
  unfold callPayout
  exact le_max_right _ _

/-- The knock-out indicator is non-negative. -/
theorem nonTouch_nonneg (S T σ r B : ℝ) (n : ℕ) (z : ℕ → ℝ) :
    0 ≤ nonTouch S T σ r B n z := by
  unfold nonTouch
  split_ifs <;> norm_num

/-- Raising the barrier can only turn the knock-out indicator from 1 to 0. -/
theorem nonTouch_antitone (S T σ r : ℝ) (n : ℕ) (z : ℕ → ℝ) (B₁ B₂ : ℝ) (h : B₁ ≤ B₂) :
    nonTouch S T σ r B₂ n z ≤ nonTouch S T σ r B₁ n z := by
  unfold nonTouch
  have hBs : barrierShift B₁ σ (T / n) ≤ barrierShift B₂ σ (T / n) := by
    unfold barrierShift
    exact mul_le_mul_of_nonneg_right h (Real.exp_pos _).le
  by_cases h2 : barrierShift B₂ σ (T / n) < rowMin (pathEntry S T σ r n z) n
  · rw [if_pos h2, if_pos (lt_of_le_of_lt hBs h2)]
  · rw [if_neg h2]
    split_ifs <;> norm_num

/-- The source-level form of `analytical_downOut_py`: the bracketed
reflection factor in the source is the Black-Scholes value at spot
`B^2/S`, so the pricer computes
`bs(S) - (S/B)^(1 - r/sigma^2) * bs(B^2/S)`. -/
theorem analytical_downOut_py_closed_form (S K t σ r B : ℝ) :
    analytical_downOut_py S K t σ r B =
      blackScholes_py S K t σ r -
        (S / B) ^ ((1 : ℝ) - r / σ ^ 2) * blackScholes_py (B ^ 2 / S) K t σ r := by
  simp only [analytical_downOut_py, blackScholes_py, div_div]

/-! ## Claim theorems -/

/-- C10: for every input (any spot, strike, maturity, volatility, rate,
barrier and variate matrix) the Monte Carlo down-and-out price is
non-negative: the indicator is 0 or 1, the payoff is a max with 0, the
mean of non-negative terms is non-negative, and the discount factor is
positive. -/
theorem mc_price_nonneg (S K T σ r B : ℝ) (m n : ℕ) (Z : ℕ → ℕ → ℝ) :
    0 ≤ monte_carlo_down_out_py S K T σ r B m n Z := by
  unfold monte_carlo_down_out_py
  refine mul_nonneg (Real.exp_pos _).le (div_nonneg ?_ (Nat.cast_nonneg m))
  exact Finset.sum_nonneg fun i _ =>
    mul_nonneg (nonTouch_nonneg S T σ r B n (Z i)) (callPayout_nonneg S T σ r K n (Z i))

/-- C9: for fixed market inputs and a fixed variate matrix, the Monte Carlo
down-and-out price is non-increasing in the barrier level: `B₁ ≤ B₂`
implies `price B₂ ≤ price B₁`. -/
theorem mc_price_antitone_in_barrier (S K T σ r : ℝ) (m n : ℕ) (Z : ℕ → ℕ → ℝ)
    (B₁ B₂ : ℝ) (h : B₁ ≤ B₂) :
    monte_carlo_down_out_py S K T σ r B₂ m n Z ≤
      monte_carlo_down_out_py S K T σ r B₁ m n Z := by
  unfold monte_carlo_down_out_py
  refine mul_le_mul_of_nonneg_left ?_ (Real.exp_pos _).le
  rw [div_eq_mul_inv, div_eq_mul_inv]
  refine mul_le_mul_of_nonneg_right ?_ (inv_nonneg.mpr (Nat.cast_nonneg m))
  refine Finset.sum_le_sum fun i _ => ?_
  exact mul_le_mul_of_nonneg_right (nonTouch_antitone S T σ r n (Z i) B₁ B₂ h)
    (callPayout_nonneg S T σ r K n (Z i))

/-- C9 witness: at a concrete input with barriers 1 ≤ 2 the price at
barrier 2 is bounded by the price at barrier 1. -/
theorem mc_price_antitone_in_barrier_witness :
    monte_carlo_down_out_py 100 110 2 (1/5) (3/100) 2 1 1 (fun _ _ => 0) ≤
      monte_carlo_down_out_py 100 110 2 (1/5) (3/100) 1 1 1 (fun _ _ => 0) :=
  mc_price_antitone_in_barrier 100 110 2 (1/5) (3/100) 1 1 (fun _ _ => 0) 1 2 (by norm_num)

/-- C6: every entry of the simulated path matrix, computed in the source as
a cumulative product of per-step exponential factors with `dt = T/n`,
equals `S` times the exponential of the cumulative sum of the per-step
log-increments `(r - sigma^2/2)*dt + sigma*sqrt(dt)*z_k`. -/
theorem pathEntry_eq_exp_cumsum (S T σ r : ℝ) (n : ℕ) (z : ℕ → ℝ) (j : ℕ) :
    pathEntry S T σ r n z j =
      S * Real.exp (∑ k in Finset.range (j + 1),
        ((r - σ ^ 2 / 2) * (T / n) + σ * Real.sqrt (T / n) * z k)) := by
  unfold pathEntry
  rw [Real.exp_sum]

/-- C4: the Monte Carlo price uses the shifted barrier
`B * exp(0.5826*sigma*sqrt(T/n))` only inside the per-path knock-out
comparison, while the terminal payoff is the raw last-column price
(column `n-1`) against the unadjusted strike `K`. -/
theorem mc_shifted_barrier_only_in_indicator (S K T σ r B : ℝ) (m n : ℕ) (Z : ℕ → ℕ → ℝ) :
    monte_carlo_down_out_py S K T σ r B m n Z =
      Real.exp (-(T * r)) *
        ((∑ i in Finset.range m,
            (if B * Real.exp (0.5826 * σ * Real.sqrt (T / n)) <
                rowMin (pathEntry S T σ r n (Z i)) n then (1 : ℝ) else 0) *
              max (pathEntry S T σ r n (Z i) (n - 1) - K) 0) / (m : ℝ)) := rfl

/-- C5: for a variate matrix with `n ≥ 1` columns, the Monte Carlo price is
the discount factor times the mean over the `m` rows of (indicator times
terminal payoff), where the indicator is 1 exactly when every grid-point
price of the row is strictly above the shifted barrier. -/
theorem mc_price_indicator_mean_formula (S K T σ r B : ℝ) (m n : ℕ) (Z : ℕ → ℕ → ℝ)
    (hn : 0 < n) :
    monte_carlo_down_out_py S K T σ r B m n Z =
      Real.exp (-(T * r)) *
        ((∑ i in Finset.range m,
            nonTouchAll S T σ r B n (Z i) *
              max (pathEntry S T σ r n (Z i) (n - 1) - K) 0) / (m : ℝ)) := by
  unfold monte_carlo_down_out_py nonTouch nonTouchAll callPayout
  simp only [lt_rowMin_iff n hn]

/-- C5 witness: the indicator-mean formula instantiated at a concrete
one-path, one-step input. -/
theorem mc_price_indicator_mean_formula_witness :
    monte_carlo_down_out_py 2 1 1 1 0 1 1 1 (fun _ _ => 0) =
      Real.exp (-((1 : ℝ) * 0)) *
        ((∑ i in Finset.range 1,
            nonTouchAll 2 1 1 0 1 1 ((fun _ _ => (0 : ℝ)) i) *
              max (pathEntry 2 1 1 0 1 ((fun _ _ => (0 : ℝ)) i) (1 - 1) - 1) 0) /
          ((1 : ℕ) : ℝ)) :=
  mc_price_indicator_mean_formula 2 1 1 1 0 1 1 1 (fun _ _ => 0) (by norm_num)

/-- C7: if every path's knock-out indicator is 0 the Monte Carlo price is
exactly 0, and with a single path (`m = 1`) the mean degenerates to that
path's discounted indicator-times-payoff value. -/
theorem mc_edge_cases_zero_and_single_path (S K T σ r B : ℝ) (m n : ℕ) (Z : ℕ → ℕ → ℝ) :
    ((∀ i < m, nonTouch S T σ r B n (Z i) = 0) →
        monte_carlo_down_out_py S K T σ r B m n Z = 0) ∧
      monte_carlo_down_out_py S K T σ r B 1 n Z =
        Real.exp (-(T * r)) *
          (nonTouch S T σ r B n (Z 0) * callPayout S T σ r K n (Z 0)) := by
  constructor
  · intro h
    unfold monte_carlo_down_out_py
    have hz : ∀ i ∈ Finset.range m,
        nonTouch S T σ r B n (Z i) * callPayout S T σ r K n (Z i) = 0 :=
      fun i hi => by rw [h i (Finset.mem_range.mp hi), zero_mul]
    rw [Finset.sum_eq_zero hz, zero_div, mul_zero]
  · unfold monte_carlo_down_out_py
    rw [Finset.sum_range_one, Nat.cast_one, div_one]

/-- C7 witness: at a concrete one-path input whose path sits at the barrier
level 0 with a positive shifted barrier, the single indicator is 0 and the
price is exactly 0. -/
theorem mc_edge_cases_zero_and_single_path_witness :
    monte_carlo_down_out_py 0 1 1 1 0 1 1 1 (fun _ _ => 0) = 0 :=
  (mc_edge_cases_zero_and_single_path 0 1 1 1 0 1 1 1 (fun _ _ => 0)).1 (by
    intro i _
    unfold nonTouch
    rw [if_neg]
    rw [not_lt, rowMin_one]
    unfold pathEntry barrierShift
    rw [zero_mul, one_mul]
    exact (Real.exp_pos _).le)

/-- C3 counterexample: the target list built by `monte_carlo_down_out_tf`
with greeks enabled contains no second-order Hessian row at all. -/
theorem mc_tf_no_second_order_targets :
    (monte_carlo_down_out_tf_targets true).any isSecondOrder = false := by decide

/-- C3 (amended): the Monte Carlo TensorFlow pricer requests exactly the
npv and the first-order gradients with respect to S, sigma, r, K, T, while
the second-order Hessian rows for S and sigma (against S, sigma, r, K, dt,
B) are requested only by the analytic TensorFlow pricer. -/
theorem mc_tf_first_order_targets_only :
    monte_carlo_down_out_tf_targets true =
        [PricerTarget.npv,
          PricerTarget.gradients
            [GreekVar.S, GreekVar.sigma, GreekVar.r, GreekVar.K, GreekVar.T]] ∧
      analytical_downOut_tf_targets true =
        [PricerTarget.npv,
          PricerTarget.gradients
            [GreekVar.S, GreekVar.sigma, GreekVar.r, GreekVar.K, GreekVar.dt, GreekVar.B],
          PricerTarget.secondOrder GreekVar.S
            [GreekVar.S, GreekVar.sigma, GreekVar.r, GreekVar.K, GreekVar.dt, GreekVar.B],
          PricerTarget.secondOrder GreekVar.sigma
            [GreekVar.S, GreekVar.sigma, GreekVar.r, GreekVar.K, GreekVar.dt, GreekVar.B]] :=
  ⟨rfl, rfl⟩

/-- C2 (code behaviour at the failing input): with the barrier 101 set
strictly above the spot 100, a one-path, one-step variate matrix with entry
2 produces a strictly positive Monte Carlo price, because the knock-out
comparison only inspects the simulated grid columns and never the initial
spot itself. -/
theorem mc_positive_price_with_barrier_above_spot :
    (100 : ℝ) < 101 ∧
      0 < monte_carlo_down_out_py 100 110 1 1 (1 / 2) 101 1 1 (fun _ _ => 2) := by
  refine ⟨by norm_num, ?_⟩
  have key : (101 : ℝ) * Real.exp (2913 / 5000) < 100 * Real.exp 2 := by
    have h1 : (7087 : ℝ) / 5000 + 1 ≤ Real.exp (7087 / 5000) := Real.add_one_le_exp _
    have h0 : (0 : ℝ) < Real.exp (2913 / 5000) := Real.exp_pos _
    have e2 : Real.exp (2 : ℝ) = Real.exp (2913 / 5000) * Real.exp (7087 / 5000) := by
      rw [← Real.exp_add]; norm_num
    nlinarith
  have hpay : (110 : ℝ) < 100 * Real.exp 2 := by
    have h1 : (2 : ℝ) + 1 ≤ Real.exp 2 := Real.add_one_le_exp _
    nlinarith
  unfold monte_carlo_down_out_py nonTouch callPayout barrierShift
  rw [Finset.sum_range_one, rowMin_one]
  simp only [pathEntry, Nat.cast_one, Finset.prod_range_one]
  norm_num
  rw [if_pos key]
  have hmax : max (100 * Real.exp 2 - 110) 0 = 100 * Real.exp 2 - 110 :=
    max_eq_left (by linarith)
  rw [hmax]
  have hd : (0 : ℝ) < Real.exp (-(1 / 2)) := Real.exp_pos _
  nlinarith

/-- C8 counterexample: at the invalid input with non-positive spot S = -1
(and K = 1, T = 1, sigma = 1, r = 1/2, B = -2, a 1-by-1 zero variate
matrix) the Monte Carlo pricer performs no fail-fast validation: it runs
the whole simulation pipeline and returns the complete numeric result 0
instead of an InvalidInput error. -/
theorem mc_returns_value_on_invalid_input :
    monte_carlo_down_out_py (-1) 1 1 1 (1 / 2) (-2) 1 1 (fun _ _ => 0) = 0 := by
  unfold monte_carlo_down_out_py callPayout
  rw [Finset.sum_range_one]
  simp only [pathEntry, Nat.cast_one, Finset.prod_range_one]
  norm_num

/-- C8 (amended): the pricing code never fails fast: for every non-positive
spot and positive strike, the Monte Carlo pricer on a 1-by-1 zero variate
matrix still runs to completion and returns the numeric value 0 (and never
raises any error). -/
theorem mc_no_fail_fast_nonpositive_spot (S K T σ r B : ℝ) (hS : S ≤ 0) (hK : 0 < K) :
    monte_carlo_down_out_py S K T σ r B 1 1 (fun _ _ => 0) = 0 := by
  have hpath : pathEntry S T σ r 1 (fun _ => (0 : ℝ)) 0 ≤ 0 := by
    unfold pathEntry
    have h0 : (0 : ℝ) ≤ ∏ k in Finset.range (0 + 1),
        Real.exp ((r - σ ^ 2 / 2) * (T / (1 : ℕ)) + σ * Real.sqrt (T / (1 : ℕ)) * 0) :=
      Finset.prod_nonneg fun k _ => (Real.exp_pos _).le
    nlinarith
  have hpay : callPayout S T σ r K 1 (fun _ => (0 : ℝ)) = 0 := by
    unfold callPayout
    exact max_eq_right (by simpa using sub_nonpos.mpr (le_trans hpath hK.le))
  unfold monte_carlo_down_out_py
  rw [Finset.sum_range_one]
  norm_num [hpay]

/-- C8 witness: the no-validation theorem applied at the concrete invalid
input S = -2 (non-positive spot) with strike 3. -/
theorem mc_no_fail_fast_nonpositive_spot_witness :
    monte_carlo_down_out_py (-2) 3 1 1 0 5 1 1 (fun _ _ => 0) = 0 :=
  mc_no_fail_fast_nonpositive_spot (-2) 3 1 1 0 5 (by norm_num) (by norm_num)

/-- C1 (code behaviour at the failing input): at the benchmark input
S = 100, K = 110, T = 2, sigma = 1/5, r = 3/100, B = 90, the source's
analytic down-and-out price differs from the spec's reflection formula by
`((S/B)^(-1/2) - (S/B)^(1/4)) * bs(B^2/S, K, T, sigma, r)`: the source's
power-law prefactor exponent `1 - r/sigma^2` evaluates to 1/4 while the
spec's exponent `1 - 2r/sigma^2` evaluates to -1/2, and the two prefactors
are provably distinct. -/
theorem analytical_downOut_exponent_bug :
    analytical_downOut_py 100 110 2 (1 / 5) (3 / 100) 90 -
        analytical_downOut_spec 100 110 2 (1 / 5) (3 / 100) 90 =
      (((100 : ℝ) / 90) ^ (-(1 / 2) : ℝ) - ((100 : ℝ) / 90) ^ ((1 / 4) : ℝ)) *
        blackScholes_py (90 ^ 2 / 100) 110 2 (1 / 5) (3 / 100) ∧
      ((100 : ℝ) / 90) ^ (-(1 / 2) : ℝ) ≠ ((100 : ℝ) / 90) ^ ((1 / 4) : ℝ) := by
  constructor
  · rw [analytical_downOut_py_closed_form]
    unfold analytical_downOut_spec
    have e1 : ((1 : ℝ) - (3 / 100) / (1 / 5) ^ 2) = ((1 / 4) : ℝ) := by norm_num
    have e2 : ((1 : ℝ) - 2 * (3 / 100) / (1 / 5) ^ 2) = (-(1 / 2) : ℝ) := by norm_num
    rw [e1, e2]
    ring
  · have hb : (1 : ℝ) < 100 / 90 := by norm_num
    exact ne_of_lt ((Real.rpow_lt_rpow_left_iff hb).mpr (by norm_num))
